import Mathlib

/-!
Verification of the antongulenko/golib utility library.

Shallow embedding conventions:
* Go strings are modelled as `List Char` (`GoStr`).  All claims below are about
  single-byte (ASCII) content, where Go's byte indexing and rune indexing agree,
  so a `Char`-level model is faithful.
* Go `error` values are modelled as `Option ε` (`none` models a `nil` error).
* The internal, mutex-protected state block of a `StopChan`
  (src/concurrency_stopchan.go, type `stopChan`) is `StopChanState`; the
  user-facing `StopChan` value, whose embedded pointer may be `nil`, is
  `Option StopChanState` (`none` models the uninitialized `StopChan{}`).
* The two third-party boundary functions used by the terminal-text component
  (`vtclean.Clean` and the East-Asian width classification of
  `golang.org/x/text/width`) are not part of this repository; the text
  definitions take them as parameters `clean` and `charWidth`.
-/

namespace Golib

/-- State block behind a StopChan: the `stopped` flag and the stored error
(src/concurrency_stopchan.go, type `stopChan`; the `cond` and `waitChan`
fields only implement blocking and are not part of the observable state). -/
structure StopChanState (ε : Type) where
  stopped : Bool
  err : Option ε
deriving DecidableEq

/-- NewStopChan allocates a fresh, un-stopped state block with no stored error. -/
def NewStopChan {ε : Type} : StopChanState ε :=
  ⟨false, none⟩

/-- StopErrFunc on a non-nil receiver: if already stopped it is a no-op;
otherwise, if a `perform` function is supplied, its returned error is stored,
and the flag is set.  `perform` is modelled by its returned value:
`none` models a nil function pointer, `some r` models a function returning `r`. -/
def StopErrFunc {ε : Type} (s : StopChanState ε) (perform : Option (Option ε)) :
    StopChanState ε :=
  if s.stopped then s
  else ⟨true, match perform with | none => s.err | some r => r⟩

/-- StopErr stops the chan storing the given (possibly nil) error,
via StopErrFunc with a function returning `e`. -/
def StopErr {ε : Type} (s : StopChanState ε) (e : Option ε) : StopChanState ε :=
  StopErrFunc s (some e)

/-- StopFunc stops the chan via StopErrFunc with a function returning nil. -/
def StopFunc {ε : Type} (s : StopChanState ε) : StopChanState ε :=
  StopErrFunc s (some none)

/-- Stop stops the chan via StopErrFunc with a nil function. -/
def Stop {ε : Type} (s : StopChanState ε) : StopChanState ε :=
  StopErrFunc s none

/-- NewStoppedChan = NewStopChan followed by StopErr with the given error. -/
def NewStoppedChan {ε : Type} (e : Option ε) : StopChanState ε :=
  StopErr NewStopChan e

/-- One mutation call on a StopChan, abstracted by which public mutator was
invoked; a supplied Go callback is modelled by its returned error value. -/
inductive StopMutation (ε : Type) where
  | stopM
  | stopErrM (e : Option ε)
  | stopFuncM
  | stopErrFuncM (perform : Option (Option ε))
deriving DecidableEq

/-- Effect of one mutation call on the state block. -/
def applyMutation {ε : Type} (s : StopChanState ε) : StopMutation ε → StopChanState ε
  | .stopM => Stop s
  | .stopErrM e => StopErr s e
  | .stopFuncM => StopFunc s
  | .stopErrFuncM p => StopErrFunc s p

/-- Effect of a sequence of mutation calls, in order. -/
def runMutations {ε : Type} (s : StopChanState ε) (ms : List (StopMutation ε)) :
    StopChanState ε :=
  ms.foldl applyMutation s

/-- The user-facing StopChan value: its embedded pointer may be nil
(`none` models the uninitialized zero value `StopChan{}`). -/
abbrev StopChan (ε : Type) := Option (StopChanState ε)

/-- Stopped: a nil receiver reports true; otherwise the flag is read. -/
def Stopped {ε : Type} : StopChan ε → Bool
  | none => true
  | some s => s.stopped

/-- Err: a nil receiver reports nil; otherwise the stored error is read. -/
def Err {ε : Type} : StopChan ε → Option ε
  | none => none
  | some s => s.err

/-- Whether Wait() returns immediately: it does for a nil receiver, and
otherwise exactly when the loop condition `!s.stopped` fails on entry. -/
def WaitReturnsNow {ε : Type} : StopChan ε → Bool
  | none => true
  | some s => s.stopped

/-- Number of initialized entries in a channel list: WaitForAny counts one
`validCases` per entry whose internal pointer is non-nil. -/
def validCases {ε : Type} (channels : List (StopChan ε)) : Nat :=
  channels.countP (fun c => c.isSome)

/-- Indices whose select case can fire right now: initialized entries whose
wait channel is already closed, i.e. whose state block is stopped.
Uninitialized entries get a dummy, never-firing channel, so they are never
ready, but they keep their position in the case list. -/
def readyIndices {ε : Type} (channels : List (StopChan ε)) : List Nat :=
  (List.range channels.length).filter fun i =>
    match channels.get? i with
    | some (some s) => s.stopped
    | _ => false

/-- Possible return values of WaitForAny for the given snapshot of channel
states: -1 when the list is empty; -1 when no entry is initialized; otherwise
the index of a case that can fire in the select statement. -/
inductive WaitForAnyReturns {ε : Type} (channels : List (StopChan ε)) : Int → Prop where
  | empty : channels = [] → WaitForAnyReturns channels (-1)
  | noValid : channels ≠ [] → validCases channels = 0 → WaitForAnyReturns channels (-1)
  | fired (i : Nat) : channels ≠ [] → validCases channels ≠ 0 →
      i ∈ readyIndices channels → WaitForAnyReturns channels (i : Int)

/-- Go slice indexing `group[i]` with an `int` index, as used by
`TaskGroup.WaitAndStop` on the result of WaitForAny: `none` models the
index-out-of-range panic (negative index or index beyond the end). -/
def listIndexInt {α : Type} (l : List α) (i : Int) : Option α :=
  if 0 ≤ i then l.get? i.toNat else none

/-- Go error values returned by a LoopTask's Loop callback: either the
distinguished `StopLoopTask` sentinel (`errors.New("Stop the LoopTask")`)
or any other error value. -/
inductive GoError where
  | stopLoopTask
  | other (msg : String)
deriving DecidableEq

/-- One iteration of the loop body spawned by LoopTask.Start:
`err := loop(stop); if err != nil { if err == StopLoopTask { err = nil };
stop.StopErr(err) }`.  The Loop callback is modelled by its constant returned
error value `loopResult` (`none` models returning nil). -/
def loopTaskStep (loopResult : Option GoError) (s : StopChanState GoError) :
    StopChanState GoError :=
  match loopResult with
  | none => s
  | some err => StopErr s (if err = GoError.stopLoopTask then none else some err)

/-- The loop `for !stop.Stopped() { ... }` of LoopTask.Start, run with the
given iteration budget.  Returns `some (n, s)` when the loop exits after `n`
executions of the body leaving state `s`, and `none` if the budget is
exhausted before the loop exits. -/
def loopTaskRun (loopResult : Option GoError) :
    Nat → StopChanState GoError → Option (Nat × StopChanState GoError)
  | 0, s => if Stopped (some s) then some (0, s) else none
  | fuel + 1, s =>
    if Stopped (some s) then some (0, s)
    else
      match loopTaskRun loopResult fuel (loopTaskStep loopResult s) with
      | some r => some (r.1 + 1, r.2)
      | none => none

/-- The value that `Stopped()` reports on the task's StopChan at the moment the
deferred StopHook callback executes.  In LoopTask.Start the hook is installed
with `defer hook()` before the loop, so it runs when the goroutine returns,
i.e. after the `for !stop.Stopped()` loop has exited; the StopChan state at
that moment is the state the loop exited with. -/
def loopTaskHookStopped (loopResult : Option GoError) (fuel : Nat) : Option Bool :=
  (loopTaskRun loopResult fuel NewStopChan).map (fun r => Stopped (some r.2))

/-- Go strings, modelled at character granularity. -/
abbrev GoStr := List Char

/-- Go's `unicode.IsSpace` restricted to the Latin-1 range, which is what
`strings.TrimSpace` strips: space, tab, newline, vertical tab, form feed,
carriage return, next line, and non-breaking space. -/
def isGoSpace (c : Char) : Bool :=
  c = ' ' || c = '\t' || c = '\n' || c = '\x0b' || c = '\x0c' || c = '\r' ||
    c = '\x85' || c = '\xa0'

/-- strings.TrimSpace: drop whitespace from both ends. -/
def TrimSpace (s : GoStr) : GoStr :=
  ((s.dropWhile isGoSpace).reverse.dropWhile isGoSpace).reverse

/-- strings.Split with a single-character separator: `splitOnChar sep "" = [""]`,
and otherwise the maximal runs between separator occurrences, in order. -/
def splitOnChar (sep : Char) : GoStr → List GoStr
  | [] => [[]]
  | c :: rest =>
    match splitOnChar sep rest with
    | [] => [[]]
    | h :: t => if c = sep then [] :: h :: t else (c :: h) :: t

/-- strings.SplitN with limit 2 and a single-character separator, presented as
the part before the first separator and, when the separator occurs, the part
after it. -/
def splitN2 (sep : Char) : GoStr → GoStr × Option GoStr
  | [] => ([], none)
  | c :: rest =>
    if c = sep then ([], some rest)
    else
      let r := splitN2 sep rest
      (c :: r.1, r.2)

/-- strings.Join. -/
def goJoin (sep : GoStr) : List GoStr → GoStr
  | [] => []
  | [x] => x
  | x :: y :: t => x ++ sep ++ goJoin sep (y :: t)

/-- EntrySeparator = "," (src/flags.go). -/
def EntrySeparator : Char := ','

/-- EntrySeparatorFormatted = EntrySeparator + " " (src/flags.go). -/
def EntrySeparatorFormatted : GoStr := [',', ' ']

/-- ValueSeparator = "=" (src/flags.go). -/
def ValueSeparator : Char := '='

/-- FormatStringSlice joins the entries with the formatted separator. -/
def FormatStringSlice (stringSlice : List GoStr) : GoStr :=
  goJoin EntrySeparatorFormatted stringSlice

/-- ParseSlice splits on EntrySeparator, trims every entry, and drops entries
that are empty after trimming. -/
def ParseSlice (data : GoStr) : List GoStr :=
  ((splitOnChar EntrySeparator data).map TrimSpace).filter (fun v => !v.isEmpty)

/-- FormatOrderedMap writes `key=value` for every index, joined by the
formatted separator, pairing `values[i]` with `keys[i]`. -/
def FormatOrderedMap (keys values : List GoStr) : GoStr :=
  goJoin EntrySeparatorFormatted
    (List.zipWith (fun k v => k ++ ValueSeparator :: v) keys values)

/-- Key/value split of one entry in ParseOrderedMap: `key, value := part, ""`,
overridden by the two halves when SplitN finds a ValueSeparator. -/
def parseMapEntry (part : GoStr) : GoStr × GoStr :=
  match splitN2 ValueSeparator part with
  | (b, some a) => (b, a)
  | (_, none) => (part, [])

/-- ParseOrderedMap splits on EntrySeparator, splits each entry at the first
ValueSeparator, trims key and value, skips entries whose trimmed key is empty,
and returns the parallel key/value lists in input order. -/
def ParseOrderedMap (data : GoStr) : List GoStr × List GoStr :=
  (splitOnChar EntrySeparator data).foldr
    (fun part acc =>
      let kv := parseMapEntry part
      let key := TrimSpace kv.1
      let value := TrimSpace kv.2
      if key.isEmpty then acc else (key :: acc.1, value :: acc.2))
    ([], [])

/-- KeyValueStringSlice.deleteIndex: shift the tail left over position `i` and
drop the last slot (`copy(slice[i:], slice[i+1:]); slice[:len(slice)-1]`). -/
def deleteIndex (i : Nat) (slice : List String) : List String :=
  slice.take i ++ slice.drop (i + 1)

/-- The loop of KeyValueStringSlice.Delete:
`for i := 0; i < len(k.Keys); i++ { if k.Keys[i] == key { delete at i } }`.
`i` advances every iteration, also right after a deletion.  The fuel argument
only bounds the iteration count; `keys.length` iterations always suffice
because `i` increases by one per iteration while the list never grows. -/
def kvsDeleteLoop (key : String) :
    Nat → Nat → List String → List String → List String × List String
  | 0, _, keys, values => (keys, values)
  | fuel + 1, i, keys, values =>
    if h : i < keys.length then
      if keys.get ⟨i, h⟩ = key then
        kvsDeleteLoop key fuel (i + 1) (deleteIndex i keys) (deleteIndex i values)
      else kvsDeleteLoop key fuel (i + 1) keys values
    else (keys, values)

/-- KeyValueStringSlice.Delete on parallel Keys/Values lists. -/
def kvsDelete (key : String) (keys values : List String) :
    List String × List String :=
  kvsDeleteLoop key keys.length 0 keys values

/-- The four logrus levels that ConfigureLogger can select. -/
inductive LogLevel where
  | debug
  | info
  | warn
  | error
deriving DecidableEq

/-- The level computation of ConfigureLogger (src/time.go) and
ConfigureLogging (src/unnamed/part_005): info by default, overridden by the
chain `if LogVerbose ... else if LogVeryQuiet ... else if LogQuiet ...`. -/
def ConfigureLoggerLevel (logVerbose logQuiet logVeryQuiet : Bool) : LogLevel :=
  if logVerbose then .debug
  else if logVeryQuiet then .error
  else if logQuiet then .warn
  else .info

/-- ReadRune consumes one character and reports its display width as
classified by the external width table (parameter `charWidth`; the source maps
the East-Asian fullwidth/halfwidth/wide classes to 2 and everything else
to 1).  On the empty string the lookup consumes nothing and the default
width 1 applies. -/
def ReadRune (charWidth : Char → Nat) : GoStr → GoStr × GoStr × Nat
  | [] => ([], [], 1)
  | c :: rest => ([c], rest, charWidth c)

/-- The summation loop of StringLength: one ReadRune per iteration (each
consumes exactly one character here), accumulating the widths. -/
def stringLengthLoop (charWidth : Char → Nat) : GoStr → Nat
  | [] => 0
  | c :: rest => charWidth c + stringLengthLoop charWidth rest

/-- StringLength cleans the string through the external escape stripper
(parameter `clean`, modelling vtclean.Clean) and sums the character widths of
the result. -/
def StringLength (clean : GoStr → GoStr) (charWidth : Char → Nat) (str : GoStr) : Nat :=
  stringLengthLoop charWidth (clean str)

/-- First loop of Substring (`// Find the start in the input string`):
consume characters into `buf` while the visible width is below `iFrom`,
counting a character's width only when cleaning the buffer shows it is
visible, and break -- without advancing past the current character -- as soon
as the width reaches `iFrom`.  Returns the remaining string.  Each iteration
inlines `ReadRune`, which consumes exactly one character. -/
def subFindStart (clean : GoStr → GoStr) (charWidth : Char → Nat) (iFrom : Nat) :
    GoStr → GoStr → Nat → Nat → GoStr
  | _, [], _, _ => []
  | buf, c :: rest, textWidth, cleanedLen =>
    if textWidth < iFrom then
      let buf2 := buf ++ [c]
      let cleaned := clean buf2
      let tw2 := if cleanedLen < cleaned.length then textWidth + charWidth c else textWidth
      let cl2 := if cleanedLen < cleaned.length then cleaned.length else cleanedLen
      if iFrom ≤ tw2 then c :: rest
      else subFindStart clean charWidth iFrom buf2 rest tw2 cl2
    else c :: rest

/-- Second loop of Substring (`// Find the end in the input string`): consume
characters while the visible width is below `iLen`, tracking the consumed
prefix length `toIdx` of `suffix`, flagging possible color codes whenever
cleaning shrinks the buffer, and on overshooting the width with a double-width
character replace it with one padding space.  Returns
`(toIdx, suffix, possibleColor)`. -/
def subFindEnd (clean : GoStr → GoStr) (charWidth : Char → Nat) (iLen : Nat) :
    GoStr → GoStr → Nat → Nat → Nat → GoStr → Bool → Nat × GoStr × Bool
  | _, [], _, _, toIdx, suffix, pc => (toIdx, suffix, pc)
  | buf, c :: rest, textWidth, cleanedLen, toIdx, suffix, pc =>
    if textWidth < iLen then
      let buf2 := buf ++ [c]
      let cleaned := clean buf2
      let tw2 := if cleanedLen < cleaned.length then textWidth + charWidth c else textWidth
      let cl2 := if cleanedLen < cleaned.length then cleaned.length else cleanedLen
      let pc2 := if cleaned.length ≠ buf2.length then true else pc
      if iLen < tw2 then
        if charWidth c = 2 then (toIdx + 1, suffix.set toIdx ' ', pc2)
        else (toIdx, suffix, pc2)
      else subFindEnd clean charWidth iLen buf2 rest tw2 cl2 (toIdx + 1) suffix pc2
    else (toIdx, suffix, pc)

/-- Substring: find the start with the first loop, then consume
`iLen = iTo - iFrom` visible columns with the second loop, take that many raw
characters, and append a reset-formatting escape when color codes may have
been consumed. -/
def Substring (clean : GoStr → GoStr) (charWidth : Char → Nat)
    (str : GoStr) (iFrom iTo : Nat) : GoStr :=
  let str1 := subFindStart clean charWidth iFrom [] str 0 0
  let iLen := iTo - iFrom
  let r := subFindEnd clean charWidth iLen [] str1 0 0 0 str1 false
  let result := r.2.1.take r.1
  if r.2.2 then result ++ ['\x1b', '[', '0', 'm'] else result

/-- Helper: a ready index arises from an initialized, stopped entry of the
list, so the list is nonempty and has at least one valid case. -/
theorem mem_readyIndices_facts {ε : Type} (channels : List (StopChan ε)) (i : Nat)
    (h : i ∈ readyIndices channels) : channels ≠ [] ∧ validCases channels ≠ 0 := by
  obtain ⟨hrange, hp⟩ := List.mem_filter.mp h
  rcases hget : channels.get? i with _ | c
  · rw [hget] at hp
    simp at hp
  rcases c with _ | s
  · rw [hget] at hp
    simp at hp
  have hmem : (some s : StopChan ε) ∈ channels := List.get?_mem hget
  constructor
  · intro hnil
    rw [hnil] at hmem
    simp at hmem
  · intro hzero
    have := (List.countP_eq_zero.mp hzero) _ hmem
    simp at this

/-- Claim C1: for every initialized StopChan state (from NewStopChan or
NewStoppedChan) and every sequence of mutation calls (Stop, StopErr, StopFunc,
StopErrFunc), a call on an already-stopped state changes nothing (flag and
stored error alike, so the flag never returns to false), and when the state is
still running, the first call performs the transition to stopped and the whole
remaining sequence leaves the state exactly as that first call produced it. -/
theorem stopchan_first_call_wins (ε : Type) (s₀ : StopChanState ε)
    (_hinit : s₀ = NewStopChan ∨ ∃ e, s₀ = NewStoppedChan e)
    (ms : List (StopMutation ε)) :
    (∀ (s : StopChanState ε) (m : StopMutation ε), s.stopped = true →
      applyMutation s m = s) ∧
    (∀ (s : StopChanState ε) (m : StopMutation ε), s.stopped = true →
      (applyMutation s m).stopped = true) ∧
    (s₀.stopped = true → runMutations s₀ ms = s₀) ∧
    (s₀.stopped = false → ∀ (m : StopMutation ε) (rest : List (StopMutation ε)),
      runMutations s₀ (m :: rest) = applyMutation s₀ m ∧
      (applyMutation s₀ m).stopped = true) := by
  clear _hinit
  have hnoop : ∀ (s : StopChanState ε) (m : StopMutation ε), s.stopped = true →
      applyMutation s m = s := by
    intro s m hs
    cases m <;> simp [applyMutation, Stop, StopErr, StopFunc, StopErrFunc, hs]
  have hrun : ∀ (l : List (StopMutation ε)) (s : StopChanState ε), s.stopped = true →
      runMutations s l = s := by
    intro l
    induction l with
    | nil => intro s _; rfl
    | cons m t ih =>
      intro s hs
      show runMutations (applyMutation s m) t = s
      rw [hnoop s m hs]
      exact ih s hs
  have htrans : ∀ (s : StopChanState ε) (m : StopMutation ε), s.stopped = false →
      (applyMutation s m).stopped = true := by
    intro s m hs
    cases m <;> simp [applyMutation, Stop, StopErr, StopFunc, StopErrFunc, hs]
  refine ⟨hnoop, fun s m hs => by rw [hnoop s m hs]; exact hs, hrun ms s₀, ?_⟩
  intro hs m rest
  have h1 := htrans s₀ m hs
  exact ⟨hrun rest _ h1, h1⟩

/-- Witness for C1 at a concrete input: starting from a fresh NewStopChan, the
first StopErr call determines the final state and stops the chan, and the
later calls change nothing. -/
theorem stopchan_first_call_wins_witness :
    runMutations (NewStopChan : StopChanState Nat)
        [StopMutation.stopErrM (some 3), StopMutation.stopM] =
      applyMutation NewStopChan (StopMutation.stopErrM (some 3)) ∧
    (applyMutation (NewStopChan : StopChanState Nat)
        (StopMutation.stopErrM (some 3))).stopped = true :=
  (stopchan_first_call_wins Nat NewStopChan (Or.inl rfl)
      [StopMutation.stopErrM (some 3), StopMutation.stopM]).2.2.2 rfl
    (StopMutation.stopErrM (some 3)) [StopMutation.stopM]

/-- Claim C2: the uninitialized StopChan reports Stopped() true, Err() nil and
Wait() returns immediately; WaitForAny returns -1, and nothing else, when the
list is empty or holds only uninitialized entries; and when exactly one
initialized entry, at index k, is stopped, WaitForAny returns k and nothing
else (uninitialized entries are skipped but keep their index positions). -/
theorem stopchan_nil_and_waitforany (ε : Type) :
    Stopped (none : StopChan ε) = true ∧
    Err (none : StopChan ε) = none ∧
    WaitReturnsNow (none : StopChan ε) = true ∧
    (∀ (channels : List (StopChan ε)) (r : Int),
      channels = [] ∨ validCases channels = 0 →
      (WaitForAnyReturns channels r ↔ r = -1)) ∧
    (∀ (channels : List (StopChan ε)) (k : Nat) (r : Int),
      readyIndices channels = [k] →
      (WaitForAnyReturns channels r ↔ r = (k : Int))) := by
  refine ⟨rfl, rfl, rfl, ?_, ?_⟩
  · intro channels r h
    constructor
    · intro hw
      cases hw with
      | empty _ => rfl
      | noValid _ _ => rfl
      | fired i hne hvc hmem =>
        rcases h with h | h
        · exact absurd h hne
        · exact absurd h hvc
    · intro hr
      subst hr
      rcases h with h | h
      · exact .empty h
      · by_cases hne : channels = []
        · exact .empty hne
        · exact .noValid hne h
  · intro channels k r hready
    have hk : k ∈ readyIndices channels := by
      rw [hready]
      exact List.mem_singleton.mpr rfl
    obtain ⟨hne, hvc⟩ := mem_readyIndices_facts channels k hk
    constructor
    · intro hw
      cases hw with
      | empty h => exact absurd h hne
      | noValid _ h => exact absurd h hvc
      | fired i _ _ hmem =>
        rw [hready] at hmem
        rw [List.mem_singleton.mp hmem]
    · intro hr
      subst hr
      exact .fired k hne hvc hk

/-- Witness for C2 at concrete inputs: in the two-element list with an
uninitialized entry at index 0 and a stopped initialized entry at index 1,
WaitForAny returns 1; on the empty list it returns -1. -/
theorem stopchan_nil_and_waitforany_witness :
    WaitForAnyReturns ([none, some ⟨true, none⟩] : List (StopChan Nat)) 1 ∧
    WaitForAnyReturns ([] : List (StopChan Nat)) (-1) :=
  ⟨((stopchan_nil_and_waitforany Nat).2.2.2.2
        [none, some ⟨true, none⟩] 1 1 (by decide)).mpr rfl,
    ((stopchan_nil_and_waitforany Nat).2.2.2.1 [] (-1) (Or.inl rfl)).mpr rfl⟩

/-- Helper: the loop of LoopTask.Start exits immediately, with zero body
executions, when the StopChan is already stopped, whatever budget remains. -/
theorem loopTaskRun_stopped (loopResult : Option GoError) (fuel : Nat)
    (s : StopChanState GoError) (hs : s.stopped = true) :
    loopTaskRun loopResult fuel s = some (0, s) := by
  cases fuel <;> simp [loopTaskRun, Stopped, hs]

/-- Claim C3: a LoopTask whose Loop always returns the StopLoopTask sentinel
executes its body exactly once and stops its StopChan with a nil error; one
whose Loop always returns any other non-nil error e executes its body exactly
once and stops its StopChan with exactly e. -/
theorem looptask_sentinel_and_error (fuel : Nat) (hfuel : 1 ≤ fuel) (e : GoError)
    (he : e ≠ GoError.stopLoopTask) :
    (loopTaskRun (some GoError.stopLoopTask) fuel NewStopChan =
        some (1, ⟨true, none⟩) ∧
      Err (some ⟨true, none⟩ : StopChan GoError) = none) ∧
    (loopTaskRun (some e) fuel NewStopChan = some (1, ⟨true, some e⟩) ∧
      Err (some ⟨true, some e⟩ : StopChan GoError) = some e) := by
  obtain ⟨n, rfl⟩ : ∃ n, fuel = n + 1 := ⟨fuel - 1, by omega⟩
  have hstep1 : loopTaskStep (some GoError.stopLoopTask) NewStopChan =
      (⟨true, none⟩ : StopChanState GoError) := by
    simp [loopTaskStep, StopErr, StopErrFunc, NewStopChan]
  have hstep2 : loopTaskStep (some e) NewStopChan =
      (⟨true, some e⟩ : StopChanState GoError) := by
    simp [loopTaskStep, StopErr, StopErrFunc, NewStopChan, he]
  constructor
  · refine ⟨?_, rfl⟩
    rw [loopTaskRun]
    rw [loopTaskRun_stopped _ n _ (by rw [hstep1])]
    simp [Stopped, NewStopChan]
    exact hstep1
  · refine ⟨?_, rfl⟩
    rw [loopTaskRun]
    rw [loopTaskRun_stopped _ n _ (by rw [hstep2])]
    simp [Stopped, NewStopChan]
    exact hstep2

/-- Witness for C3 at a concrete input: with budget 2, the sentinel-returning
loop runs once and stops with no error, and a loop returning the distinct
error `other "boom"` runs once and stops with exactly that error. -/
theorem looptask_sentinel_and_error_witness :
    (1 ≤ 2) ∧
    loopTaskRun (some GoError.stopLoopTask) 2 NewStopChan =
      some (1, ⟨true, none⟩) ∧
    loopTaskRun (some (GoError.other "boom")) 2 NewStopChan =
      some (1, ⟨true, some (GoError.other "boom")⟩) :=
  ⟨by decide,
    (looptask_sentinel_and_error 2 (by decide) (GoError.other "boom")
        (by decide)).1.1,
    (looptask_sentinel_and_error 2 (by decide) (GoError.other "boom")
        (by decide)).2.1⟩

/-- Claim C4, code evaluation at the failing input: for a LoopTask whose Loop
returns the StopLoopTask sentinel (and with a StopHook configured), the
deferred StopHook runs only after the `for !stop.Stopped()` loop has exited,
and at that moment Stopped() already reports true -- not false as the claim
and the StopHook field's own documentation state.  The loop can only exit
after the StopChan has been stopped, so the hook can never observe a running
StopChan. -/
theorem looptask_hook_sees_stopped_chan :
    loopTaskHookStopped (some GoError.stopLoopTask) 2 = some true ∧
    loopTaskHookStopped (some GoError.stopLoopTask) 2 ≠ some false := by
  constructor <;> decide

/-- Claim C6, code evaluation at the failing input: deleting key "a" from the
parallel lists Keys = ["a", "a"], Values = ["1", "2"] leaves Keys = ["a"],
Values = ["2"].  After the deletion at index 0 the loop increments `i` past
the element that shifted into position 0, so the second, adjacent occurrence
of "a" survives -- contradicting the claim (and the method's own
documentation) that Delete removes every occurrence of the key. -/
theorem kvs_delete_adjacent_eval :
    kvsDelete "a" ["a", "a"] ["1", "2"] = (["a"], ["2"]) ∧
    "a" ∈ (kvsDelete "a" ["a", "a"] ["1", "2"]).1 := by
  constructor
  · rfl
  · simp [kvsDelete, kvsDeleteLoop, deleteIndex]

/-- Claim C7, code evaluation at the failing input: with the external escape
stripper acting as the identity (no escape sequences in "abc") and every
character classified single-width, Substring("abc", 1, 2) returns "a" -- the
character occupying visible column 0 -- instead of "b", the character at
visible column 1 that the claim requires.  The first scan loop breaks as soon
as the visible width reaches `iFrom`, before advancing past the character that
produced column `iFrom - 1`, so for `from ≥ 1` the returned window starts one
visible column early. -/
theorem substring_from_one_off_by_one_eval :
    Substring id (fun _ => 1) ['a', 'b', 'c'] 1 2 = ['a'] ∧
    (['a'] : GoStr) ≠ ['b'] := by
  constructor
  · rfl
  · decide

/-- Claim C9, code evaluation at the failing input: with LogVerbose = false,
LogQuiet = true and LogVeryQuiet = true, ConfigureLogger selects the error
level, not the warn level stated by the claim (and by the documentation of the
LogQuiet/LogVeryQuiet variables): the code tests LogVeryQuiet before LogQuiet,
so quiet does not take precedence over very-quiet. -/
theorem configure_logger_quiet_veryquiet_eval :
    ConfigureLoggerLevel false true true = LogLevel.error ∧
    LogLevel.error ≠ LogLevel.warn := by
  constructor
  · rfl
  · decide

/-- Claim C10: when a TaskGroup is empty or every task's Start returns an
uninitialized StopChan, WaitForAny can only return -1, it does return -1, and
indexing the group with -1 faults (index out of range), so WaitAndStop and
PrintWaitAndStop never return normally; a (task, error-count) result requires
at least one initialized StopChan.  Tasks are represented by the StopChans
their Start methods return, so the group and the channel list coincide. -/
theorem taskgroup_waitandstop_faults (ε : Type) (group : List (StopChan ε))
    (h : group = [] ∨ ∀ c ∈ group, c = none) :
    WaitForAnyReturns group (-1) ∧
    (∀ r, WaitForAnyReturns group r → r = -1) ∧
    (∀ r, WaitForAnyReturns group r → listIndexInt group r = none) := by
  have hvc : group ≠ [] → validCases group = 0 := by
    intro hne
    rcases h with h | h
    · exact absurd h hne
    · refine List.countP_eq_zero.mpr ?_
      intro c hc
      rw [h c hc]
      simp
  have honly : ∀ r, WaitForAnyReturns group r → r = -1 := by
    intro r hw
    cases hw with
    | empty _ => rfl
    | noValid _ _ => rfl
    | fired i hne hv hmem => exact absurd (hvc hne) hv
  refine ⟨?_, honly, ?_⟩
  · by_cases hne : group = []
    · exact .empty hne
    · exact .noValid hne (hvc hne)
  · intro r hw
    rw [honly r hw]
    simp [listIndexInt]

/-- Witness for C10 at a concrete input: for a group of two tasks that both
return uninitialized StopChans, WaitForAny returns -1 and indexing the group
with -1 yields no element (the out-of-range panic). -/
theorem taskgroup_waitandstop_faults_witness :
    WaitForAnyReturns ([none, none] : List (StopChan Nat)) (-1) ∧
    listIndexInt ([none, none] : List (StopChan Nat)) (-1) = none := by
  have h := taskgroup_waitandstop_faults Nat [none, none] (Or.inr (by decide))
  exact ⟨h.1, h.2.2 (-1) h.1⟩

/-- Helper: strings.Split never produces an empty list of parts. -/
theorem splitOnChar_ne_nil (sep : Char) (s : GoStr) : splitOnChar sep s ≠ [] := by
  cases s with
  | nil => simp [splitOnChar]
  | cons c rest =>
    rw [splitOnChar]
    cases h : splitOnChar sep rest with
    | nil => simp
    | cons hd tl => by_cases hc : c = sep <;> simp [hc]

/-- Helper: splitting a string that does not contain the separator yields that
string as the only part. -/
theorem splitOnChar_not_mem (sep : Char) (x : GoStr) (hx : sep ∉ x) :
    splitOnChar sep x = [x] := by
  induction x with
  | nil => rfl
  | cons c rest ih =>
    have hc : ¬c = sep := by
      intro h
      exact hx (by simp [h])
    have hrest : sep ∉ rest := by
      intro h
      exact hx (List.mem_cons_of_mem c h)
    rw [splitOnChar, ih hrest]
    simp [hc]

/-- Helper: splitting peels off a separator-free prefix before the first
separator occurrence. -/
theorem splitOnChar_append_sep (sep : Char) (x rest : GoStr) (hx : sep ∉ x) :
    splitOnChar sep (x ++ sep :: rest) = x :: splitOnChar sep rest := by
  induction x with
  | nil =>
    simp only [List.nil_append]
    rw [splitOnChar]
    cases h : splitOnChar sep rest with
    | nil => exact absurd h (splitOnChar_ne_nil sep rest)
    | cons hd tl => simp
  | cons c x2 ih =>
    have hc : ¬c = sep := by
      intro h
      exact hx (by simp [h])
    have hx2 : sep ∉ x2 := by
      intro h
      exact hx (List.mem_cons_of_mem c h)
    simp only [List.cons_append]
    rw [splitOnChar, ih hx2]
    simp [hc]

/-- Helper: splitting a comma-space join of comma-free entries on the comma
recovers the entries, every entry after the first carrying the space that
followed the comma in the formatted text. -/
theorem splitOnChar_goJoin (x : GoStr) (xs : List GoStr)
    (hx : EntrySeparator ∉ x) (hxs : ∀ y ∈ xs, EntrySeparator ∉ y) :
    splitOnChar EntrySeparator (goJoin EntrySeparatorFormatted (x :: xs)) =
      x :: xs.map (fun y => ' ' :: y) := by
  induction xs generalizing x with
  | nil => simp [goJoin, splitOnChar_not_mem EntrySeparator x hx]
  | cons y t ih =>
    have hy : EntrySeparator ∉ y := hxs y (by simp)
    have ht : ∀ z ∈ t, EntrySeparator ∉ z := fun z hz => hxs z (by simp [hz])
    have hjoin : goJoin EntrySeparatorFormatted (x :: y :: t) =
        x ++ EntrySeparator :: ' ' :: goJoin EntrySeparatorFormatted (y :: t) := by
      rw [goJoin]
      simp [EntrySeparatorFormatted, EntrySeparator]
    rw [hjoin, splitOnChar_append_sep EntrySeparator x _ hx]
    rw [splitOnChar, ih y hy ht]
    have hsp : ¬(' ' = EntrySeparator) := by decide
    simp [hsp]

/-- Helper: trimming is unaffected by one leading space. -/
theorem trimSpace_space_cons (y : GoStr) : TrimSpace (' ' :: y) = TrimSpace y := by
  have h : isGoSpace ' ' = true := rfl
  simp [TrimSpace, List.dropWhile_cons, h]

/-- Helper: SplitN with limit 2 splits at the first separator occurrence. -/
theorem splitN2_append_sep (sep : Char) (k v : GoStr) (hk : sep ∉ k) :
    splitN2 sep (k ++ sep :: v) = (k, some v) := by
  induction k with
  | nil => simp [splitN2]
  | cons c k2 ih =>
    have hc : ¬c = sep := by
      intro h
      exact hk (by simp [h])
    have hk2 : sep ∉ k2 := by
      intro h
      exact hk (List.mem_cons_of_mem c h)
    simp [splitN2, hc, ih hk2]

/-- Helper: a `key=value` entry of comma-free key and value is comma-free. -/
theorem entrySep_not_mem_entry (k v : GoStr) (hk : EntrySeparator ∉ k)
    (hv : EntrySeparator ∉ v) : EntrySeparator ∉ k ++ ValueSeparator :: v := by
  intro h
  rcases List.mem_append.mp h with h | h
  · exact hk h
  · rcases List.mem_cons.mp h with h | h
    · exact absurd h (by decide)
    · exact hv h

/-- Helper: the ParseOrderedMap fold recovers all space-prefixed `key=value`
entries built from non-empty, trimmed, `=`-free keys and trimmed values. -/
theorem parse_entries_mapped (ks vs : List GoStr) (hlen : ks.length = vs.length)
    (hk : ∀ k ∈ ks, k ≠ [] ∧ ValueSeparator ∉ k ∧ TrimSpace k = k)
    (hv : ∀ v ∈ vs, TrimSpace v = v) :
    ((List.zipWith (fun k v => k ++ ValueSeparator :: v) ks vs).map
        (fun y => ' ' :: y)).foldr
      (fun part acc =>
        let kv := parseMapEntry part
        let key := TrimSpace kv.1
        let value := TrimSpace kv.2
        if key.isEmpty then acc else (key :: acc.1, value :: acc.2))
      ([], []) = (ks, vs) := by
  induction ks generalizing vs with
  | nil =>
    cases vs with
    | nil => rfl
    | cons v vs2 => simp at hlen
  | cons k ks2 ih =>
    cases vs with
    | nil => simp at hlen
    | cons v vs2 =>
      have hkk := hk k (by simp)
      have hvv := hv v (by simp)
      have hrec := ih vs2 (by simpa using hlen)
        (fun z hz => hk z (by simp [hz])) (fun z hz => hv z (by simp [hz]))
      simp only [List.zipWith_cons_cons, List.map_cons, List.foldr_cons, hrec]
      have hsplit : splitN2 ValueSeparator (' ' :: (k ++ ValueSeparator :: v)) =
          (' ' :: k, some v) := by
        have hsp : ¬(' ' = ValueSeparator) := by decide
        simp [splitN2, hsp, splitN2_append_sep ValueSeparator k v hkk.2.1]
      have hkey : TrimSpace (' ' :: k) = k := by
        rw [trimSpace_space_cons, hkk.2.2]
      have hne : k.isEmpty = false := by
        cases k with
        | nil => exact absurd rfl hkk.1
        | cons a b => rfl
      simp [parseMapEntry, hsplit, hkey, hvv, hne]

/-- Helper: ParseSlice recovers all space-prefixed entries built from
non-empty, trimmed strings. -/
theorem parse_slice_mapped (t : List GoStr)
    (ht : ∀ y ∈ t, TrimSpace y = y ∧ y ≠ []) :
    ((t.map (fun y => ' ' :: y)).map TrimSpace).filter (fun v => !v.isEmpty) = t := by
  induction t with
  | nil => rfl
  | cons y t2 ih =>
    have hy := ht y (by simp)
    have hne : y.isEmpty = false := by
      cases y with
      | nil => exact absurd rfl hy.2
      | cons a b => rfl
    simp only [List.map_cons, trimSpace_space_cons, hy.1, List.filter_cons, hne]
    rw [ih (fun z hz => ht z (by simp [hz]))]
    simp

/-- Helper: all `key=value` entries of comma-free keys and values are
comma-free. -/
theorem entrySep_not_mem_zipWith (ks vs : List GoStr)
    (hk : ∀ k ∈ ks, EntrySeparator ∉ k) (hv : ∀ v ∈ vs, EntrySeparator ∉ v) :
    ∀ y ∈ List.zipWith (fun k v => k ++ ValueSeparator :: v) ks vs,
      EntrySeparator ∉ y := by
  induction ks generalizing vs with
  | nil =>
    intro y hy
    simp at hy
  | cons k ks2 ih =>
    cases vs with
    | nil =>
      intro y hy
      simp at hy
    | cons v vs2 =>
      intro y hy
      rcases List.mem_cons.mp (by simpa using hy) with h | h
      · subst h
        exact entrySep_not_mem_entry k v (hk k (by simp)) (hv v (by simp))
      · exact ih vs2 (fun z hz => hk z (by simp [hz]))
          (fun z hz => hv z (by simp [hz])) y h

/-- Counterexample for C5 as stated: the empty key satisfies every stated side
condition (no '=', no ',', no leading or trailing whitespace), yet the pair
list keys = [""], values = ["v"] does not round-trip: FormatOrderedMap yields
"=v", whose parse drops the entry because its trimmed key is empty, returning
([], []) instead of ([""], ["v"]). -/
theorem flag_text_roundtrip_counterexample :
    ValueSeparator ∉ ([] : GoStr) ∧ EntrySeparator ∉ ([] : GoStr) ∧
    TrimSpace ([] : GoStr) = [] ∧
    ValueSeparator ∉ ['v'] ∧ EntrySeparator ∉ ['v'] ∧ TrimSpace ['v'] = ['v'] ∧
    ParseOrderedMap (FormatOrderedMap [[]] [['v']]) ≠ ([[]], [['v']]) := by
  refine ⟨by decide, by decide, rfl, by decide, by decide, rfl, ?_⟩
  decide

/-- Claim C5 as amended: the map round-trip additionally requires every key to
be non-empty (the counterexample above forces exactly this strengthening);
the list round-trip is as claimed.  For every equal-length pair of lists of
non-empty, trimmed, '='-free and ','-free keys and trimmed, '='-free and
','-free values, ParseOrderedMap inverts FormatOrderedMap; and for every list
of non-empty, trimmed, ','-free strings, ParseSlice inverts FormatStringSlice. -/
theorem flag_text_roundtrip_amended
    (keys values : List GoStr) (hlen : keys.length = values.length)
    (hk : ∀ k ∈ keys, k ≠ [] ∧ EntrySeparator ∉ k ∧ ValueSeparator ∉ k ∧
      TrimSpace k = k)
    (hv : ∀ v ∈ values, EntrySeparator ∉ v ∧ ValueSeparator ∉ v ∧ TrimSpace v = v)
    (l : List GoStr)
    (hl : ∀ x ∈ l, x ≠ [] ∧ EntrySeparator ∉ x ∧ TrimSpace x = x) :
    ParseOrderedMap (FormatOrderedMap keys values) = (keys, values) ∧
    ParseSlice (FormatStringSlice l) = l := by
  constructor
  · cases keys with
    | nil =>
      cases values with
      | nil => rfl
      | cons v vs => simp at hlen
    | cons k ks =>
      cases values with
      | nil => simp at hlen
      | cons v vs =>
        have hkk := hk k (by simp)
        have hvv := hv v (by simp)
        have hes := entrySep_not_mem_zipWith ks vs
          (fun z hz => (hk z (by simp [hz])).2.1)
          (fun z hz => (hv z (by simp [hz])).1)
        have he0 : EntrySeparator ∉ k ++ ValueSeparator :: v :=
          entrySep_not_mem_entry k v hkk.2.1 hvv.1
        rw [ParseOrderedMap, FormatOrderedMap]
        simp only [List.zipWith_cons_cons]
        rw [splitOnChar_goJoin _ _ he0 hes]
        rw [List.foldr_cons]
        rw [parse_entries_mapped ks vs (by simpa using hlen)
          (fun z hz => ⟨(hk z (by simp [hz])).1, (hk z (by simp [hz])).2.2.1,
            (hk z (by simp [hz])).2.2.2⟩)
          (fun z hz => (hv z (by simp [hz])).2.2)]
        have hsplit := splitN2_append_sep ValueSeparator k v hkk.2.2.1
        have hne : k.isEmpty = false := by
          cases k with
          | nil => exact absurd rfl hkk.1
          | cons a b => rfl
        simp [parseMapEntry, hsplit, hkk.2.2.2, hvv.2.2, hne]
  · cases l with
    | nil => rfl
    | cons x xs =>
      have hxx := hl x (by simp)
      rw [ParseSlice, FormatStringSlice,
        splitOnChar_goJoin x xs hxx.2.1 (fun y hy => (hl y (by simp [hy])).2.1)]
      have hne : x.isEmpty = false := by
        cases x with
        | nil => exact absurd rfl hxx.1
        | cons a b => rfl
      simp only [List.map_cons, hxx.2.2, List.filter_cons, hne]
      rw [parse_slice_mapped xs (fun z hz =>
        ⟨(hl z (by simp [hz])).2.2, (hl z (by simp [hz])).1⟩)]
      simp

/-- Witness for the amended C5 at concrete inputs: the pair lists
keys = ["k1", "k2"], values = ["a", "b c"] round-trip through
FormatOrderedMap/ParseOrderedMap, and the list ["x", "yz"] round-trips
through FormatStringSlice/ParseSlice. -/
theorem flag_text_roundtrip_amended_witness :
    ParseOrderedMap (FormatOrderedMap [['k', '1'], ['k', '2']]
        [['a'], ['b', ' ', 'c']]) =
      ([['k', '1'], ['k', '2']], [['a'], ['b', ' ', 'c']]) ∧
    ParseSlice (FormatStringSlice [['x'], ['y', 'z']]) = [['x'], ['y', 'z']] :=
  flag_text_roundtrip_amended [['k', '1'], ['k', '2']] [['a'], ['b', ' ', 'c']]
    (by decide) (by decide) (by decide) [['x'], ['y', 'z']] (by decide)

/-- Helper: on width-1 characters the StringLength summation loop counts the
characters. -/
theorem stringLengthLoop_ones (charWidth : Char → Nat) (l : GoStr)
    (hw : ∀ c ∈ l, charWidth c = 1) : stringLengthLoop charWidth l = l.length := by
  induction l with
  | nil => rfl
  | cons c rest ih =>
    rw [stringLengthLoop, hw c (by simp), ih (fun z hz => hw z (by simp [hz]))]
    simp [Nat.add_comm]

/-- Helper: with `iFrom = 0` the first Substring loop consumes nothing. -/
theorem subFindStart_zero (clean : GoStr → GoStr) (charWidth : Char → Nat)
    (str : GoStr) : subFindStart clean charWidth 0 [] str 0 0 = str := by
  cases str <;> simp [subFindStart]

/-- Helper: when the escape stripper acts as the identity on the consumed
buffer extended by any prefix of the remaining input, every character is
width 1 and the whole remaining input fits into the visible budget, the
second Substring loop consumes the entire input, advancing `toIdx` by its
length and never setting the color flag. -/
theorem subFindEnd_consumes_all (clean : GoStr → GoStr) (charWidth : Char → Nat)
    (iLen : Nat) (str : GoStr) :
    ∀ (buf : GoStr) (textWidth cleanedLen toIdx : Nat) (suffix : GoStr) (pc : Bool),
    (∀ c ∈ str, charWidth c = 1) →
    (∀ p q : GoStr, str = p ++ q → clean (buf ++ p) = buf ++ p) →
    cleanedLen = buf.length →
    textWidth + str.length ≤ iLen →
    subFindEnd clean charWidth iLen buf str textWidth cleanedLen toIdx suffix pc =
      (toIdx + str.length, suffix, pc) := by
  induction str with
  | nil =>
    intro buf textWidth cleanedLen toIdx suffix pc _ _ _ _
    simp [subFindEnd]
  | cons c rest ih =>
    intro buf textWidth cleanedLen toIdx suffix pc hw hclean hcl hfit
    have hlt : textWidth < iLen := by
      have := hfit
      simp [List.length_cons] at this
      omega
    have hc : clean (buf ++ [c]) = buf ++ [c] := hclean [c] rest rfl
    have hw1 : charWidth c = 1 := hw c (by simp)
    rw [subFindEnd]
    simp only [if_pos hlt, hc, hcl, hw1]
    have hgrow : buf.length < (buf ++ [c]).length := by simp
    rw [if_pos hgrow, if_pos hgrow]
    have hnot : ¬(iLen < textWidth + 1) := by
      simp [List.length_cons] at hfit
      omega
    rw [if_neg hnot]
    rw [show (if (buf ++ [c]).length ≠ (buf ++ [c]).length then true else pc) = pc
      from by simp]
    rw [ih (buf ++ [c]) (textWidth + 1) (buf ++ [c]).length (toIdx + 1) suffix pc
      (fun z hz => hw z (by simp [hz]))
      (fun p q hpq => by
        have := hclean ([c] ++ p) q (by simpa using hpq)
        simpa using this)
      rfl
      (by simp only [List.length_cons] at hfit ⊢; omega)]
    have harr : toIdx + 1 + rest.length = toIdx + (c :: rest).length := by
      simp only [List.length_cons]
      omega
    rw [harr]

/-- Claim C8: for ASCII strings with no escape sequences (the stripper leaves
every contiguous piece unchanged, every character is width 1 and fits in one
byte), StringLength equals the byte length, and Substring over the full range
[0, StringLength) returns the string unchanged. -/
theorem stringlength_substring_identity (clean : GoStr → GoStr)
    (charWidth : Char → Nat) (s : GoStr)
    (hclean : ∀ t u v : GoStr, s = u ++ t ++ v → clean t = t)
    (hw : ∀ c ∈ s, charWidth c = 1)
    (_hascii : ∀ c ∈ s, c.toNat < 128) :
    StringLength clean charWidth s = s.length ∧
    Substring clean charWidth s 0 s.length = s := by
  clear _hascii
  have hcs : clean s = s := hclean s [] [] (by simp)
  constructor
  · rw [StringLength, hcs, stringLengthLoop_ones charWidth s hw]
  · rw [Substring]
    simp only [subFindStart_zero, Nat.sub_zero]
    rw [subFindEnd_consumes_all clean charWidth s.length s [] 0 0 0 s false hw
      (fun p q hpq => hclean p [] q (by simpa using hpq))
      rfl
      (by simp)]
    simp

/-- Witness for C8 at a concrete input: with the stripper acting as the
identity and all characters single-width, StringLength "ok" = 2 and
Substring "ok" over [0, 2) returns "ok". -/
theorem stringlength_substring_identity_witness :
    StringLength id (fun _ => 1) ['o', 'k'] = 2 ∧
    Substring id (fun _ => 1) ['o', 'k'] 0 2 = ['o', 'k'] :=
  stringlength_substring_identity id (fun _ => 1) ['o', 'k']
    (fun t u v _ => rfl) (by decide) (by decide)

end Golib
